import Mathlib

/-! Verification of the evalexpr expression language (crate version 2).

The repository source under src holds only lib.rs, which contains the crate
documentation with its doctests and the module declarations; the bodies of the
declared modules (value, token, tree, operator, function, context, error) are
not present. The definitions below therefore model those modules from the
spec, faithful to its words, and are checked against the doctests that lib.rs
does contain. -/

namespace Evalexpr

/-- Modelled from the spec: src is missing value.rs, whose FloatType is a
64-bit IEEE floating point number. Finite floats are modelled as exact
fractions, an integer numerator over a natural denominator, normalised after
every operation. On the decimal literals and the small integer arithmetic the
spec and the doctests exercise, IEEE double arithmetic is exact, so this
model computes the same results. -/
structure Frac where
  num : Int
  den : Nat
deriving DecidableEq

/-- Normalisation divides numerator and denominator by their greatest common
divisor, giving the canonical representative of the fraction. -/
def Frac.norm (a : Frac) : Frac :=
  let g := Nat.gcd a.num.natAbs a.den
  if g = 0 then a else ⟨a.num.tdiv g, a.den / g⟩

def Frac.ofInt (i : Int) : Frac := ⟨i, 1⟩

/-- Modelled from the spec: the special IEEE values. NaN also stands in for
results of operations the model leaves unspecified, such as non-integer
exponents; no claim exercises those. -/
inductive FloatVal where
  | finite (q : Frac)
  | posInf
  | negInf
  | nan
deriving DecidableEq

def FloatVal.fneg : FloatVal → FloatVal
  | .finite q => .finite ⟨-q.num, q.den⟩
  | .posInf => .negInf
  | .negInf => .posInf
  | .nan => .nan

def FloatVal.fadd : FloatVal → FloatVal → FloatVal
  | .finite a, .finite b => .finite (Frac.norm ⟨a.num * b.den + b.num * a.den, a.den * b.den⟩)
  | .finite _, .posInf => .posInf
  | .posInf, .finite _ => .posInf
  | .posInf, .posInf => .posInf
  | .finite _, .negInf => .negInf
  | .negInf, .finite _ => .negInf
  | .negInf, .negInf => .negInf
  | _, _ => .nan

def FloatVal.fsub (a b : FloatVal) : FloatVal := a.fadd b.fneg

def FloatVal.fmul : FloatVal → FloatVal → FloatVal
  | .finite a, .finite b => .finite (Frac.norm ⟨a.num * b.num, a.den * b.den⟩)
  | .posInf, .posInf => .posInf
  | .posInf, .negInf => .negInf
  | .negInf, .posInf => .negInf
  | .negInf, .negInf => .posInf
  | .posInf, .finite b => if 0 < b.num then .posInf else if b.num < 0 then .negInf else .nan
  | .finite a, .posInf => if 0 < a.num then .posInf else if a.num < 0 then .negInf else .nan
  | .negInf, .finite b => if 0 < b.num then .negInf else if b.num < 0 then .posInf else .nan
  | .finite a, .negInf => if 0 < a.num then .negInf else if a.num < 0 then .posInf else .nan
  | _, _ => .nan

/-- Modelled from the spec: Float division follows IEEE semantics, so a
positive finite number divided by zero is positive infinity. Signed zeros
are not distinguished by the model. -/
def FloatVal.fdiv : FloatVal → FloatVal → FloatVal
  | .finite a, .finite b =>
    if b.num = 0 then
      if 0 < a.num then .posInf else if a.num < 0 then .negInf else .nan
    else if 0 < b.num then .finite (Frac.norm ⟨a.num * b.den, a.den * b.num.toNat⟩)
    else .finite (Frac.norm ⟨-(a.num * b.den), a.den * (-b.num).toNat⟩)
  | .finite _, .posInf => .finite ⟨0, 1⟩
  | .finite _, .negInf => .finite ⟨0, 1⟩
  | .posInf, .finite b => if b.num < 0 then .negInf else .posInf
  | .negInf, .finite b => if b.num < 0 then .posInf else .negInf
  | _, _ => .nan

/-- Modelled from the spec: the remainder of IEEE division, with the sign of
the dividend, for finite operands; other operand shapes are unspecified by
any claim and map to NaN. -/
def FloatVal.fmod : FloatVal → FloatVal → FloatVal
  | .finite a, .finite b =>
    if b.num = 0 then .nan
    else
      let t : Int := Int.tdiv (a.num * (b.den : Int)) ((a.den : Int) * b.num)
      .finite (Frac.norm ⟨a.num * b.den - t * b.num * a.den, a.den * b.den⟩)
  | _, _ => .nan

/-- Modelled from the spec: exponentiation always happens in floating point.
The model covers integer exponents, which is exact; a non-integer exponent
gives an irrational result in general and is mapped to NaN, and no claim
exercises it. -/
def FloatVal.fpow : FloatVal → FloatVal → FloatVal
  | .finite b, .finite e =>
    if e.den = 0 then .nan
    else if e.num.emod e.den = 0 then
      let z : Int := e.num.ediv e.den
      if 0 ≤ z then .finite (Frac.norm ⟨b.num ^ z.toNat, b.den ^ z.toNat⟩)
      else if b.num = 0 then .posInf
      else if 0 < b.num then .finite (Frac.norm ⟨(b.den : Int) ^ (-z).toNat, b.num.toNat ^ (-z).toNat⟩)
      else if (-z).toNat % 2 = 1 then
        .finite (Frac.norm ⟨-((b.den : Int) ^ (-z).toNat), (-b.num).toNat ^ (-z).toNat⟩)
      else .finite (Frac.norm ⟨(b.den : Int) ^ (-z).toNat, (-b.num).toNat ^ (-z).toNat⟩)
    else .nan
  | _, _ => .nan

/-- Modelled from the spec: IEEE equality, NaN equal to nothing, both
infinities equal to themselves, finite fractions compared exactly by cross
multiplication. -/
def FloatVal.feq : FloatVal → FloatVal → Bool
  | .finite a, .finite b => a.num * (b.den : Int) == b.num * (a.den : Int)
  | .posInf, .posInf => true
  | .negInf, .negInf => true
  | _, _ => false

/-- Modelled from the spec: IEEE strict order, false on NaN operands, finite
fractions compared exactly by cross multiplication. -/
def FloatVal.flt : FloatVal → FloatVal → Bool
  | .finite a, .finite b => decide (a.num * (b.den : Int) < b.num * (a.den : Int))
  | .finite _, .posInf => true
  | .negInf, .finite _ => true
  | .negInf, .posInf => true
  | _, _ => false

def FloatVal.fle (a b : FloatVal) : Bool := a.flt b || a.feq b

/-- Modelled from the spec: src is missing value.rs. Value is the closed
variant type of runtime values: Boolean, Integer (64-bit signed, modelled as
unbounded since no claim exercises overflow), Float, String, Tuple and the
Empty unit value. -/
inductive Value where
  | boolean (b : Bool)
  | int (i : Int)
  | float (f : FloatVal)
  | str (s : String)
  | tuple (vs : List Value)
  | empty

def Value.isInt : Value → Bool
  | .int _ => true
  | _ => false

def Value.isFloat : Value → Bool
  | .float _ => true
  | _ => false

def Value.isBoolean : Value → Bool
  | .boolean _ => true
  | _ => false

def Value.isNumber : Value → Bool
  | .int _ => true
  | .float _ => true
  | _ => false

/-- Index of the variant case a value belongs to, used to speak about values
of different cases. -/
def Value.caseIdx : Value → Nat
  | .boolean _ => 0
  | .int _ => 1
  | .float _ => 2
  | .str _ => 3
  | .tuple _ => 4
  | .empty => 5

/-- Conversion of an Integer operand to Float, as the coercion rule demands. -/
def intToFloat (i : Int) : FloatVal := .finite (Frac.ofInt i)

mutual
/-- Modelled from the spec: equality of values is structural per case, with
the single exception that an Integer and a Float are compared numerically
after coercion; values of any two other distinct cases are simply unequal. -/
def valueEq : Value → Value → Bool
  | .boolean a, .boolean b => a == b
  | .int a, .int b => a == b
  | .int a, .float y => FloatVal.feq (intToFloat a) y
  | .float x, .int b => FloatVal.feq x (intToFloat b)
  | .float x, .float y => FloatVal.feq x y
  | .str a, .str b => a == b
  | .tuple xs, .tuple ys => valueListEq xs ys
  | .empty, .empty => true
  | _, _ => false

def valueListEq : List Value → List Value → Bool
  | [], [] => true
  | x :: xs, y :: ys => valueEq x y && valueListEq xs ys
  | _, _ => false
end

/-- Modelled from the spec: src is missing error.rs. The error taxonomy of
section 7 of the spec; recursionLimit is a model artifact, the fuel bound of
the fuel-indexed tokenizer and parser, unreachable at the fuel the entry
points supply. -/
inductive EvalexprError where
  | unrecognisedCharacter
  | unmatchedParenthesis
  | unexpectedToken
  | emptyExpression
  | danglingOperator
  | expectedNumber (v : Value)
  | expectedBoolean (v : Value)
  | divisionByZero
  | moduloByZero
  | variableIdentifierNotFound (s : String)
  | functionIdentifierNotFound (s : String)
  | wrongFunctionArgumentAmount (expected actual : Nat)
  | invalidFunctionArgumentAmount
  | recursionLimit

/-- The syntactic errors of the parser, as the spec taxonomy groups them. -/
def EvalexprError.isSyntacticError : EvalexprError → Bool
  | .unmatchedParenthesis => true
  | .unexpectedToken => true
  | .emptyExpression => true
  | .danglingOperator => true
  | _ => false

/-- Modelled from the spec: src is missing function.rs. A Function is a pair
of the expected argument count (none meaning variadic) and the evaluation
procedure. -/
structure Function where
  argument_amount : Option Nat
  function : List Value → Except EvalexprError Value

/-- Modelled from the spec: src is missing context.rs. The binding context
capability: resolve an identifier to a variable value or to a function. -/
structure Context where
  get_value : String → Option Value
  get_function : String → Option Function

/-- The always-empty context, answering none to every request. -/
def EmptyContext : Context := ⟨fun _ => none, fun _ => none⟩

/-- Modelled from the spec: the in-memory mapping context, modelled with
association lists. -/
structure HashMapContext where
  vars : List (String × Value)
  funcs : List (String × Function)

def HashMapContext.new : HashMapContext := ⟨[], []⟩

def HashMapContext.set_value (c : HashMapContext) (name : String) (v : Value) : HashMapContext :=
  { c with vars := (name, v) :: c.vars }

/-- Modelled from the spec: registering a function whose fixed argument
amount is zero fails instead of storing the function; such identifiers must
be bound as variables. -/
def HashMapContext.set_function (c : HashMapContext) (name : String) (f : Function) :
    Except EvalexprError HashMapContext :=
  if f.argument_amount = some 0 then .error .invalidFunctionArgumentAmount
  else .ok { c with funcs := (name, f) :: c.funcs }

def HashMapContext.toContext (c : HashMapContext) : Context :=
  ⟨fun s => c.vars.lookup s, fun s => c.funcs.lookup s⟩

/-- Modelled from the spec: function application verifies the declared
argument count against the actual one, fails with the wrong-argument-amount
error on mismatch without invoking the procedure, and otherwise invokes the
procedure and propagates its result or error verbatim. -/
def callFunction (f : Function) (args : List Value) : Except EvalexprError Value :=
  match f.argument_amount with
  | some n =>
    if args.length = n then f.function args
    else .error (.wrongFunctionArgumentAmount n args.length)
  | none => f.function args

def Value.toFloatVal : Value → Option FloatVal
  | .int i => some (intToFloat i)
  | .float f => some f
  | _ => none

/-- Modelled from the spec: the min builtin keeps the smaller argument at each
step, preserving the value exactly as it was passed in, so the result carries
the type of the extremal argument. -/
def minFold : Value → List Value → Except EvalexprError Value
  | best, [] => .ok best
  | best, v :: rest =>
    match best.toFloatVal, v.toFloatVal with
    | some b, some x => minFold (if FloatVal.flt x b then v else best) rest
    | none, _ => .error (.expectedNumber best)
    | some _, none => .error (.expectedNumber v)

/-- Modelled from the spec: the max builtin, dual to min. -/
def maxFold : Value → List Value → Except EvalexprError Value
  | best, [] => .ok best
  | best, v :: rest =>
    match best.toFloatVal, v.toFloatVal with
    | some b, some x => maxFold (if FloatVal.flt b x then v else best) rest
    | none, _ => .error (.expectedNumber best)
    | some _, none => .error (.expectedNumber v)

/-- Modelled from the spec: the min builtin takes one or more arguments. -/
def builtinMin : List Value → Except EvalexprError Value
  | [] => .error (.wrongFunctionArgumentAmount 1 0)
  | v :: rest => minFold v rest

/-- Modelled from the spec: the max builtin takes one or more arguments. -/
def builtinMax : List Value → Except EvalexprError Value
  | [] => .error (.wrongFunctionArgumentAmount 1 0)
  | v :: rest => maxFold v rest

/-- Modelled from the spec: the table of builtin functions, keyed by
identifier. -/
def builtinFunction (s : String) : Option (List Value → Except EvalexprError Value) :=
  if s = "min" then some builtinMin
  else if s = "max" then some builtinMax
  else none

/-- Modelled from the spec: src is missing operator.rs. The binary operators,
with tuple the aggregation operator. -/
inductive BinOp where
  | add | sub | mul | div | mod | exp
  | lt | gt | le | ge | eq | ne
  | and | or
  | tuple
deriving DecidableEq

/-- Modelled from the spec: the unary operators, negation and logical not. -/
inductive UnOp where
  | neg | lnot
deriving DecidableEq

/-- Modelled from the spec: the fixed operator precedence table. -/
def BinOp.precedence : BinOp → Nat
  | .exp => 120
  | .mul => 100
  | .div => 100
  | .mod => 100
  | .add => 95
  | .sub => 95
  | .lt => 80
  | .gt => 80
  | .le => 80
  | .ge => 80
  | .eq => 80
  | .ne => 80
  | .and => 75
  | .or => 70
  | .tuple => 40

/-- Modelled from the spec: exponentiation is the only right-associative
binary operator. -/
def BinOp.rightAssociative : BinOp → Bool
  | .exp => true
  | _ => false

/-- The six comparison operators, the non-associative precedence-80 group. -/
def BinOp.isComparison : BinOp → Bool
  | .lt => true
  | .gt => true
  | .le => true
  | .ge => true
  | .eq => true
  | .ne => true
  | _ => false

/-- The five binary arithmetic operators other than exponentiation. -/
def BinOp.isArith : BinOp → Bool
  | .add => true
  | .sub => true
  | .mul => true
  | .div => true
  | .mod => true
  | _ => false

/-- Modelled from the spec: the numeric coercion rule, applied by every
binary operator that takes numbers. Two Integers stay in the Integer world;
if either operand is Float the other is converted to Float; a non-number
operand is rejected with the expected-number error. -/
def numOp (a b : Value)
    (fi : Int → Int → Except EvalexprError Value)
    (ff : FloatVal → FloatVal → Except EvalexprError Value) : Except EvalexprError Value :=
  match a, b with
  | .int i, .int j => fi i j
  | .int i, .float y => ff (intToFloat i) y
  | .float x, .int j => ff x (intToFloat j)
  | .float x, .float y => ff x y
  | .int _, w => .error (.expectedNumber w)
  | .float _, w => .error (.expectedNumber w)
  | v, _ => .error (.expectedNumber v)

/-- Modelled from the spec: src is missing operator.rs, whose eval applies a
binary operator to two evaluated operand values. -/
def applyBin : BinOp → Value → Value → Except EvalexprError Value
  | .add, a, b => numOp a b (fun i j => .ok (.int (i + j))) (fun x y => .ok (.float (x.fadd y)))
  | .sub, a, b => numOp a b (fun i j => .ok (.int (i - j))) (fun x y => .ok (.float (x.fsub y)))
  | .mul, a, b => numOp a b (fun i j => .ok (.int (i * j))) (fun x y => .ok (.float (x.fmul y)))
  | .div, a, b => numOp a b
      (fun i j => if j = 0 then .error .divisionByZero else .ok (.int (Int.tdiv i j)))
      (fun x y => .ok (.float (x.fdiv y)))
  | .mod, a, b => numOp a b
      (fun i j => if j = 0 then .error .moduloByZero else .ok (.int (Int.tmod i j)))
      (fun x y => .ok (.float (x.fmod y)))
  | .exp, a, b => numOp a b
      (fun i j => .ok (.float ((intToFloat i).fpow (intToFloat j))))
      (fun x y => .ok (.float (x.fpow y)))
  | .lt, a, b => numOp a b
      (fun i j => .ok (.boolean (decide (i < j))))
      (fun x y => .ok (.boolean (x.flt y)))
  | .gt, a, b => numOp a b
      (fun i j => .ok (.boolean (decide (j < i))))
      (fun x y => .ok (.boolean (y.flt x)))
  | .le, a, b => numOp a b
      (fun i j => .ok (.boolean (decide (i ≤ j))))
      (fun x y => .ok (.boolean (x.fle y)))
  | .ge, a, b => numOp a b
      (fun i j => .ok (.boolean (decide (j ≤ i))))
      (fun x y => .ok (.boolean (y.fle x)))
  | .eq, a, b => .ok (.boolean (valueEq a b))
  | .ne, a, b => .ok (.boolean (! valueEq a b))
  | .and, a, b =>
    match a, b with
    | .boolean x, .boolean y => .ok (.boolean (x && y))
    | .boolean _, w => .error (.expectedBoolean w)
    | v, _ => .error (.expectedBoolean v)
  | .or, a, b =>
    match a, b with
    | .boolean x, .boolean y => .ok (.boolean (x || y))
    | .boolean _, w => .error (.expectedBoolean w)
    | v, _ => .error (.expectedBoolean v)
  | .tuple, a, b => .ok (.tuple [a, b])

/-- Modelled from the spec: unary negation expects a number, logical not
expects a Boolean. -/
def applyUn : UnOp → Value → Except EvalexprError Value
  | .neg, .int i => .ok (.int (-i))
  | .neg, .float f => .ok (.float f.fneg)
  | .neg, v => .error (.expectedNumber v)
  | .lnot, .boolean b => .ok (.boolean (!b))
  | .lnot, v => .error (.expectedBoolean v)

/-- Modelled from the spec: src is missing tree.rs. The syntax tree: literal
leaves, identifier leaves, a parenthesis marker (which suppresses aggregation
flattening), function application, unary and binary operator nodes. -/
inductive Node where
  | const (v : Value)
  | varId (s : String)
  | paren (c : Node)
  | call (name : String) (arg : Node)
  | unop (op : UnOp) (c : Node)
  | binop (op : BinOp) (l r : Node)

/-- Modelled from the spec: src is missing tree.rs. Recursive post-order
evaluation: children first, left to right, then the operator. Adjacent
unparenthesised aggregations flatten into one tuple; a parenthesised operand
is not flattened. A function application evaluates its argument expression,
spreads an aggregation argument into the argument list, resolves the
identifier in the context and then among the builtins, and calls it. -/
def evalNode (ctx : Context) : Node → Except EvalexprError Value
  | .const v => .ok v
  | .varId s =>
    match ctx.get_value s with
    | some v => .ok v
    | none => .error (.variableIdentifierNotFound s)
  | .paren c => evalNode ctx c
  | .unop op c => do
    let v ← evalNode ctx c
    applyUn op v
  | .binop .tuple l r => do
    let vl ← evalNode ctx l
    let vr ← evalNode ctx r
    match l, vl with
    | .binop .tuple _ _, .tuple vs => .ok (.tuple (vs ++ [vr]))
    | _, _ => .ok (.tuple [vl, vr])
  | .binop op l r => do
    let vl ← evalNode ctx l
    let vr ← evalNode ctx r
    applyBin op vl vr
  | .call name arg => do
    let v ← evalNode ctx arg
    let args :=
      match arg, v with
      | .binop .tuple _ _, .tuple vs => vs
      | _, _ => [v]
    match ctx.get_function name with
    | some fn => callFunction fn args
    | none =>
      match builtinFunction name with
      | some bf => bf args
      | none => .error (.functionIdentifierNotFound name)

/-- Modelled from the spec: src is missing token.rs. The lexical tokens. -/
inductive Tok where
  | lit (v : Value)
  | ident (s : String)
  | plus | minus | star | slash | percent | hat
  | ltT | gtT | leT | geT | eqT | neT
  | andT | orT | bang | comma | lparen | rparen

def takeDigits : List Char → List Char × List Char
  | [] => ([], [])
  | c :: cs =>
    if c.isDigit then
      let p := takeDigits cs
      (c :: p.1, p.2)
    else ([], c :: cs)

def identChar (c : Char) : Bool := c.isAlpha || c == '_'

def takeIdentChars : List Char → List Char × List Char
  | [] => ([], [])
  | c :: cs =>
    if identChar c then
      let p := takeIdentChars cs
      (c :: p.1, p.2)
    else ([], c :: cs)

def digitsToNat (ds : List Char) : Nat :=
  ds.foldl (fun a c => a * 10 + (c.toNat - Char.toNat '0')) 0

/-- The exact value of a decimal literal with the given integer part digits
and fraction digits. -/
def litFrac (intPart fracPart : List Char) : Frac :=
  Frac.norm ⟨(digitsToNat intPart) * 10 ^ fracPart.length + digitsToNat fracPart,
    10 ^ fracPart.length⟩

/-- Modelled from the spec: src is missing token.rs. Left-to-right scan:
whitespace is skipped, a digit run with an optional fraction is a numeric
literal (greedy, longest match), a letter run is the boolean literals or an
identifier, multi-character operators are recognised before their
single-character prefixes, and an unrecognised character is a lexical error.
Fuel-indexed; every step consumes at least one character. -/
def tokenizeAux : Nat → List Char → Except EvalexprError (List Tok)
  | 0, _ => .error .recursionLimit
  | _ + 1, [] => .ok []
  | fuel + 1, c :: cs =>
    if c.isWhitespace then tokenizeAux fuel cs
    else if c.isDigit then
      let p := takeDigits (c :: cs)
      match p.2 with
      | '.' :: rest2 =>
        let q := takeDigits rest2
        (tokenizeAux fuel q.2).map
          (fun ts => Tok.lit (.float (.finite (litFrac p.1 q.1))) :: ts)
      | rest =>
        (tokenizeAux fuel rest).map (fun ts => Tok.lit (.int (digitsToNat p.1)) :: ts)
    else if c == '.' then
      match cs with
      | d :: _ =>
        if d.isDigit then
          let q := takeDigits cs
          (tokenizeAux fuel q.2).map
            (fun ts => Tok.lit (.float (.finite (litFrac [] q.1))) :: ts)
        else .error .unrecognisedCharacter
      | [] => .error .unrecognisedCharacter
    else if identChar c then
      let p := takeIdentChars (c :: cs)
      let s := String.mk p.1
      let t :=
        if s == "true" then Tok.lit (.boolean true)
        else if s == "false" then Tok.lit (.boolean false)
        else Tok.ident s
      (tokenizeAux fuel p.2).map (fun ts => t :: ts)
    else
      match c, cs with
      | '&', '&' :: rest => (tokenizeAux fuel rest).map (fun ts => Tok.andT :: ts)
      | '&', _ => .error .unrecognisedCharacter
      | '|', '|' :: rest => (tokenizeAux fuel rest).map (fun ts => Tok.orT :: ts)
      | '|', _ => .error .unrecognisedCharacter
      | '=', '=' :: rest => (tokenizeAux fuel rest).map (fun ts => Tok.eqT :: ts)
      | '=', _ => .error .unrecognisedCharacter
      | '!', '=' :: rest => (tokenizeAux fuel rest).map (fun ts => Tok.neT :: ts)
      | '!', _ => (tokenizeAux fuel cs).map (fun ts => Tok.bang :: ts)
      | '<', '=' :: rest => (tokenizeAux fuel rest).map (fun ts => Tok.leT :: ts)
      | '<', _ => (tokenizeAux fuel cs).map (fun ts => Tok.ltT :: ts)
      | '>', '=' :: rest => (tokenizeAux fuel rest).map (fun ts => Tok.geT :: ts)
      | '>', _ => (tokenizeAux fuel cs).map (fun ts => Tok.gtT :: ts)
      | '+', _ => (tokenizeAux fuel cs).map (fun ts => Tok.plus :: ts)
      | '-', _ => (tokenizeAux fuel cs).map (fun ts => Tok.minus :: ts)
      | '*', _ => (tokenizeAux fuel cs).map (fun ts => Tok.star :: ts)
      | '/', _ => (tokenizeAux fuel cs).map (fun ts => Tok.slash :: ts)
      | '%', _ => (tokenizeAux fuel cs).map (fun ts => Tok.percent :: ts)
      | '^', _ => (tokenizeAux fuel cs).map (fun ts => Tok.hat :: ts)
      | ',', _ => (tokenizeAux fuel cs).map (fun ts => Tok.comma :: ts)
      | '(', _ => (tokenizeAux fuel cs).map (fun ts => Tok.lparen :: ts)
      | ')', _ => (tokenizeAux fuel cs).map (fun ts => Tok.rparen :: ts)
      | _, _ => .error .unrecognisedCharacter

def tokenize (s : String) : Except EvalexprError (List Tok) :=
  tokenizeAux (s.length + 1) s.data

def binOpOfTok : Tok → Option BinOp
  | .plus => some .add
  | .minus => some .sub
  | .star => some .mul
  | .slash => some .div
  | .percent => some .mod
  | .hat => some .exp
  | .ltT => some .lt
  | .gtT => some .gt
  | .leT => some .le
  | .geT => some .ge
  | .eqT => some .eq
  | .neT => some .ne
  | .andT => some .and
  | .orT => some .or
  | .comma => some .tuple
  | _ => none

/-- True when the next token is one of the non-associative comparison
operators; used to reject comparison chaining at parse time. -/
def headIsComparison : List Tok → Bool
  | t :: _ =>
    match binOpOfTok t with
    | some op => op.isComparison
    | _ => false
  | [] => false

mutual
/-- Modelled from the spec: src is missing tree.rs, whose parser is
precedence-climbing over the token stream. parsePrimary parses a literal, an
identifier (a function call when directly followed by an opening
parenthesis), a parenthesised sub-expression, or a unary-prefixed operand. -/
def parsePrimary : Nat → List Tok → Except EvalexprError (Node × List Tok)
  | 0, _ => .error .recursionLimit
  | _ + 1, [] => .error .danglingOperator
  | fuel + 1, t :: ts =>
    match t, ts with
    | .lit v, _ => .ok (.const v, ts)
    | .ident s, .lparen :: rest =>
      match parseExpr fuel 0 rest with
      | .error e => .error e
      | .ok (arg, rest2) =>
        match rest2 with
        | .rparen :: rest3 => .ok (.call s arg, rest3)
        | _ => .error .unmatchedParenthesis
    | .ident s, _ => .ok (.varId s, ts)
    | .lparen, _ =>
      match parseExpr fuel 0 ts with
      | .error e => .error e
      | .ok (e, rest2) =>
        match rest2 with
        | .rparen :: rest3 => .ok (.paren e, rest3)
        | _ => .error .unmatchedParenthesis
    | .minus, _ =>
      match parseExpr fuel 110 ts with
      | .error e => .error e
      | .ok (e, rest2) => .ok (.unop .neg e, rest2)
    | .bang, _ =>
      match parseExpr fuel 110 ts with
      | .error e => .error e
      | .ok (e, rest2) => .ok (.unop .lnot e, rest2)
    | _, _ => .error .unexpectedToken

/-- Modelled from the spec: fold in binary operators whose precedence meets
the current minimum binding power, recursing with a raised threshold (raised
by one for left-associative operators). After folding a comparison, a
following comparison operator of the same precedence group is a parse error:
the precedence-80 group is non-associative. -/
def parseLoop : Nat → Nat → Node → List Tok → Except EvalexprError (Node × List Tok)
  | 0, _, _, _ => .error .recursionLimit
  | _ + 1, _, lhs, [] => .ok (lhs, [])
  | fuel + 1, minPrec, lhs, t :: ts =>
    match binOpOfTok t with
    | some op =>
      if minPrec ≤ op.precedence then
        match parseExpr fuel (if op.rightAssociative then op.precedence else op.precedence + 1) ts with
        | .error e => .error e
        | .ok (rhs, rest2) =>
          if op.isComparison && headIsComparison rest2 then .error .unexpectedToken
          else parseLoop fuel minPrec (.binop op lhs rhs) rest2
      else .ok (lhs, t :: ts)
    | none => .ok (lhs, t :: ts)

def parseExpr : Nat → Nat → List Tok → Except EvalexprError (Node × List Tok)
  | 0, _, _ => .error .recursionLimit
  | fuel + 1, minPrec, ts =>
    match parsePrimary fuel ts with
    | .error e => .error e
    | .ok (lhs, rest) => parseLoop fuel minPrec lhs rest
end

/-- Modelled from the spec: build a reusable tree without evaluating it. An
empty token stream is the empty-expression error; tokens left over after a
complete expression are a syntactic error. -/
def build_operator_tree (s : String) : Except EvalexprError Node :=
  match tokenize s with
  | .error e => .error e
  | .ok [] => .error .emptyExpression
  | .ok toks =>
    match parseExpr (4 * toks.length + 8) 0 toks with
    | .error e => .error e
    | .ok (node, []) => .ok node
    | .ok (_, .rparen :: _) => .error .unmatchedParenthesis
    | .ok (_, _) => .error .unexpectedToken

/-- Modelled from the spec: the one-shot composition of parse and evaluate
against a caller-supplied context. -/
def eval_with_context (s : String) (ctx : Context) : Except EvalexprError Value :=
  match build_operator_tree s with
  | .error e => .error e
  | .ok node => evalNode ctx node

/-- Modelled from the spec: the one-shot empty-context variant. -/
def eval (s : String) : Except EvalexprError Value :=
  eval_with_context s EmptyContext

/-- A context holding one user function named g of fixed arity two, used to
exercise the arity check through the full pipeline. -/
def ctx8 : Context :=
  ⟨fun _ => none,
   fun s => if s == "g" then some ⟨some 2, fun _ => .ok (.int 99)⟩ else none⟩

/-- True on the values min and max handle in this model: Integers and finite
Floats with a positive denominator. Every float the pipeline builds is
normalised and has a positive denominator. -/
def finiteNumeric : Value → Bool
  | .int _ => true
  | .float (.finite q) => decide (0 < q.den)
  | _ => false

/-- The exact rational a numeric value denotes, used to state the order
properties of min and max. -/
def Value.toRat : Value → Rat
  | .int i => (i : Rat)
  | .float (.finite q) => (q.num : Rat) / (q.den : Rat)
  | _ => 0

/-- The fraction a finite numeric value denotes. -/
def Value.fracOf : Value → Frac
  | .int i => Frac.ofInt i
  | .float (.finite q) => q
  | _ => ⟨0, 1⟩

/-- C1: the aggregation operator flattens only adjacent unparenthesised
aggregations: eval of "1, 2, 3" is the flat three-element tuple, while
eval of "(1, 2), 3" is a two-element tuple whose first element is itself
the two-element tuple holding 1 and 2, so parenthesising a sub-aggregation
suppresses flattening. -/
theorem c1_aggregation_flattening :
    eval "1, 2, 3" = .ok (.tuple [.int 1, .int 2, .int 3]) ∧
    eval "(1, 2), 3" = .ok (.tuple [.tuple [.int 1, .int 2], .int 3]) :=
  ⟨rfl, rfl⟩

/-- C2: exponentiation is right-associative: eval of "2 ^ 3 ^ 2" is the
float 512, the value of 2 ^ (3 ^ 2), and not 64, the value of (2 ^ 3) ^ 2. -/
theorem c2_exponentiation_right_associative :
    eval "2 ^ 3 ^ 2" = .ok (.float (.finite (Frac.ofInt 512))) ∧
    eval "2 ^ 3 ^ 2" ≠ .ok (.float (.finite (Frac.ofInt 64))) := by
  refine ⟨rfl, ?_⟩
  intro h
  have h512 : eval "2 ^ 3 ^ 2" = .ok (.float (.finite (Frac.ofInt 512))) := rfl
  have h2 := h512.symm.trans h
  simp [Frac.ofInt] at h2

/-- C4: chaining comparison operators is rejected at parse time with a
syntactic error: building the tree for "1 < 2 < 3" fails with the
unexpected-token error, rather than parsing as a left fold. -/
theorem c4_comparison_chaining_rejected :
    build_operator_tree "1 < 2 < 3" = .error .unexpectedToken ∧
    EvalexprError.isSyntacticError .unexpectedToken = true :=
  ⟨rfl, rfl⟩

/-- C6: division or modulo of two Integers by zero fails with the
integer-division-by-zero, respectively integer-modulo-by-zero, error, so
eval of "5 / 0" errors, while Float division follows IEEE semantics and
eval of "5.0 / 0.0" succeeds with positive infinity. -/
theorem c6_division_by_zero :
    (∀ i : Int, applyBin .div (.int i) (.int 0) = .error .divisionByZero) ∧
    (∀ i : Int, applyBin .mod (.int i) (.int 0) = .error .moduloByZero) ∧
    eval "5 / 0" = .error .divisionByZero ∧
    eval "5.0 / 0.0" = .ok (.float .posInf) :=
  ⟨fun _ => rfl, fun _ => rfl, rfl, rfl⟩

/-- C3 counterexample: the claim groups the comparison operators with the
arithmetic ones and asserts that a Float operand makes the result a Float,
but a comparison with a Float operand yields a Boolean: eval of "1.0 < 2" is
the Boolean true, which is not a Float value. -/
theorem c3_counterexample :
    eval "1.0 < 2" = .ok (.boolean true) ∧ Value.isFloat (.boolean true) = false :=
  ⟨rfl, rfl⟩

/-- C3 amended: for every binary arithmetic operator other than
exponentiation, two Integer operands give an Integer result, a Float operand
coerces the other operand to Float and the result is a Float; the comparison
operators coerce operands the same way but always yield a Boolean;
exponentiation always yields a Float on numeric operands; and the two spec
examples hold: eval of "1.0 + 2 * 3" is the float 7 and eval of "2 ^ 2" is
the float 4. -/
theorem c3_numeric_coercion :
    (∀ op : BinOp, op.isArith = true → ∀ i j : Int, ∀ r,
      applyBin op (.int i) (.int j) = .ok r → r.isInt = true) ∧
    (∀ op : BinOp, op.isArith = true ∨ op.isComparison = true → ∀ x : FloatVal, ∀ j : Int,
      applyBin op (.float x) (.int j) = applyBin op (.float x) (.float (intToFloat j)) ∧
      applyBin op (.int j) (.float x) = applyBin op (.float (intToFloat j)) (.float x)) ∧
    (∀ op : BinOp, op.isArith = true → ∀ x y : FloatVal, ∀ r,
      applyBin op (.float x) (.float y) = .ok r → r.isFloat = true) ∧
    (∀ op : BinOp, op.isComparison = true → ∀ v w r,
      applyBin op v w = .ok r → r.isBoolean = true) ∧
    (∀ v w r, v.isNumber = true → w.isNumber = true →
      applyBin .exp v w = .ok r → r.isFloat = true) ∧
    eval "1.0 + 2 * 3" = .ok (.float (.finite (Frac.ofInt 7))) ∧
    eval "2 ^ 2" = .ok (.float (.finite (Frac.ofInt 4))) := by
  refine ⟨?_, ?_, ?_, ?_, ?_, rfl, rfl⟩
  · intro op hop i j r h
    cases op <;> first
      | exact absurd hop (by decide)
      | (simp only [applyBin, numOp] at h
         first
           | (cases h; rfl)
           | (split at h
              · cases h
              · cases h; rfl))
  · intro op hop x j
    cases op <;> first
      | exact ⟨rfl, rfl⟩
      | exact absurd hop (by rintro (h | h) <;> simp [BinOp.isArith, BinOp.isComparison] at h)
  · intro op hop x y r h
    cases op <;> first
      | exact absurd hop (by decide)
      | (simp only [applyBin, numOp] at h; cases h; rfl)
  · intro op hop v w r h
    cases op <;> first
      | exact absurd hop (by decide)
      | (simp only [applyBin] at h; cases h; rfl)
      | (simp only [applyBin, numOp] at h
         cases v <;> cases w <;> first
           | (cases h; rfl)
           | (cases h))
  · intro v w r hv hw h
    cases v <;> cases w <;> simp [Value.isNumber] at hv hw <;>
      (simp only [applyBin, numOp] at h; cases h; rfl)

/-- C3 witness: the amended coercion theorem instantiated at concrete
inputs, addition of the Integers 2 and 3 yielding the Integer 5. -/
theorem c3_numeric_coercion_witness : Value.isInt (.int 5) = true :=
  c3_numeric_coercion.1 .add rfl 2 3 (.int 5) rfl

/-- C5: equality and inequality never produce an error: for any two values
there is a Boolean answer; values of different cases with at least one
non-numeric operand compare equal to false and unequal to true; an Integer
compared with a Float is coerced numerically, so eval of "1 == 1.0" is the
Boolean true. -/
theorem c5_equality_total :
    (∀ v w : Value, v.isNumber = false ∨ w.isNumber = false → v.caseIdx ≠ w.caseIdx →
      applyBin .eq v w = .ok (.boolean false) ∧ applyBin .ne v w = .ok (.boolean true)) ∧
    (∀ v w : Value, ∃ b : Bool,
      applyBin .eq v w = .ok (.boolean b) ∧ applyBin .ne v w = .ok (.boolean (!b))) ∧
    (∀ i : Int, ∀ x : FloatVal,
      applyBin .eq (.int i) (.float x) = .ok (.boolean (FloatVal.feq (intToFloat i) x))) ∧
    eval "1 == 1.0" = .ok (.boolean true) := by
  refine ⟨?_, ?_, fun i x => rfl, rfl⟩
  · intro v w hnum hcase
    cases v <;> cases w <;>
      simp_all [applyBin, valueEq, Value.isNumber, Value.caseIdx]
  · intro v w
    exact ⟨valueEq v w, rfl, rfl⟩

/-- C5 witness: the cross-case conjunct instantiated at a Boolean compared
with a Tuple. -/
theorem c5_equality_total_witness :
    applyBin .eq (.boolean true) (.tuple []) = .ok (.boolean false) ∧
    applyBin .ne (.boolean true) (.tuple []) = .ok (.boolean true) :=
  c5_equality_total.1 (.boolean true) (.tuple []) (Or.inl rfl) (by decide)

/-- C7: the logical operators are strict in both Boolean operands: on two
Booleans they return the conjunction respectively disjunction; for both
operators a non-Boolean operand is rejected with the expected-boolean error
whichever side it is on; for both operators the right operand is evaluated
even when the left one already decides the result; and the concrete
evaluations hold, eval of "true && 4 > 2" is true, eval of "1 && true" and of
"1 || true" fail with expected-boolean on the Integer 1, and so do eval of
"false && 1" and of "true || 1" even though their left operands already
decide the result of a short-circuiting interpretation. -/
theorem c7_logical_operators_strict :
    (∀ a b : Bool, applyBin .and (.boolean a) (.boolean b) = .ok (.boolean (a && b))) ∧
    (∀ a b : Bool, applyBin .or (.boolean a) (.boolean b) = .ok (.boolean (a || b))) ∧
    (∀ v w : Value, v.isBoolean = false → applyBin .and v w = .error (.expectedBoolean v)) ∧
    (∀ v w : Value, v.isBoolean = false → applyBin .or v w = .error (.expectedBoolean v)) ∧
    (∀ b : Bool, ∀ w : Value, w.isBoolean = false →
      applyBin .and (.boolean b) w = .error (.expectedBoolean w)) ∧
    (∀ b : Bool, ∀ w : Value, w.isBoolean = false →
      applyBin .or (.boolean b) w = .error (.expectedBoolean w)) ∧
    (∀ ctx l r vl e, evalNode ctx l = .ok vl → evalNode ctx r = .error e →
      evalNode ctx (.binop .and l r) = .error e) ∧
    (∀ ctx l r vl e, evalNode ctx l = .ok vl → evalNode ctx r = .error e →
      evalNode ctx (.binop .or l r) = .error e) ∧
    eval "true && 4 > 2" = .ok (.boolean true) ∧
    eval "1 && true" = .error (.expectedBoolean (.int 1)) ∧
    eval "false && 1" = .error (.expectedBoolean (.int 1)) ∧
    eval "1 || true" = .error (.expectedBoolean (.int 1)) ∧
    eval "true || 1" = .error (.expectedBoolean (.int 1)) := by
  refine ⟨fun a b => rfl, fun a b => rfl, ?_, ?_, ?_, ?_, ?_, ?_, rfl, rfl, rfl, rfl, rfl⟩
  · intro v w h
    cases v
    case boolean => simp [Value.isBoolean] at h
    all_goals cases w <;> rfl
  · intro v w h
    cases v
    case boolean => simp [Value.isBoolean] at h
    all_goals cases w <;> rfl
  · intro b w h
    cases w
    case boolean => simp [Value.isBoolean] at h
    all_goals rfl
  · intro b w h
    cases w
    case boolean => simp [Value.isBoolean] at h
    all_goals rfl
  · intro ctx l r vl e h1 h2
    have h3 : evalNode ctx (.binop .and l r) =
        Except.bind (evalNode ctx l)
          (fun a => Except.bind (evalNode ctx r) (fun b => applyBin .and a b)) := rfl
    rw [h3, h1, h2]
    rfl
  · intro ctx l r vl e h1 h2
    have h3 : evalNode ctx (.binop .or l r) =
        Except.bind (evalNode ctx l)
          (fun a => Except.bind (evalNode ctx r) (fun b => applyBin .or a b)) := rfl
    rw [h3, h1, h2]
    rfl

/-- C7 witness: the strictness conjunct for the disjunction instantiated
concretely: the left operand is the literal true, yet the error of the right
operand, an unbound variable, is what the disjunction reports. -/
theorem c7_logical_operators_strict_witness :
    evalNode EmptyContext (.binop .or (.const (.boolean true)) (.varId "x"))
      = .error (.variableIdentifierNotFound "x") :=
  c7_logical_operators_strict.2.2.2.2.2.2.2.1 EmptyContext (.const (.boolean true)) (.varId "x")
    (.boolean true) (.variableIdentifierNotFound "x") rfl rfl

/-- C8: calling a function registered with a fixed argument amount with the
wrong number of arguments fails with the wrong-argument-count error for
every possible procedure body, so the body is never consulted; on a matching
count, and for a variadic function, the procedure is invoked and its result
propagated verbatim. Through the full pipeline, the arity-two function g of
ctx8 called with one argument fails while called with two it answers. -/
theorem c8_function_arity :
    (∀ n : Nat, ∀ p : List Value → Except EvalexprError Value, ∀ args, args.length ≠ n →
      callFunction ⟨some n, p⟩ args = .error (.wrongFunctionArgumentAmount n args.length)) ∧
    (∀ n : Nat, ∀ p : List Value → Except EvalexprError Value, ∀ args, args.length = n →
      callFunction ⟨some n, p⟩ args = p args) ∧
    (∀ p : List Value → Except EvalexprError Value, ∀ args,
      callFunction ⟨none, p⟩ args = p args) ∧
    eval_with_context "g(1)" ctx8 = .error (.wrongFunctionArgumentAmount 2 1) ∧
    eval_with_context "g(1, 2)" ctx8 = .ok (.int 99) := by
  refine ⟨?_, ?_, fun p args => rfl, rfl, rfl⟩
  · intro n p args h
    simp [callFunction, h]
  · intro n p args h
    simp [callFunction, h]

/-- C8 witness: the arity-mismatch conjunct instantiated at a concrete
function of arity two applied to one argument. -/
theorem c8_function_arity_witness :
    callFunction ⟨some 2, fun _ => .ok (.int 99)⟩ [.int 1]
      = .error (.wrongFunctionArgumentAmount 2 1) :=
  c8_function_arity.1 2 (fun _ => .ok (.int 99)) [.int 1] (by decide)

/-- C9: registering a function with a fixed argument amount of zero fails at
registration time, for every possible procedure body, so nothing is stored;
registering any function whose argument amount is not the fixed zero
succeeds and the stored function is retrievable under its name. -/
theorem c9_zero_arity_rejected :
    (∀ c : HashMapContext, ∀ name : String, ∀ p : List Value → Except EvalexprError Value,
      HashMapContext.set_function c name ⟨some 0, p⟩ = .error .invalidFunctionArgumentAmount) ∧
    (∀ c : HashMapContext, ∀ name : String, ∀ f : Function, f.argument_amount ≠ some 0 →
      ∃ c2, HashMapContext.set_function c name f = .ok c2 ∧
        c2.toContext.get_function name = some f) := by
  constructor
  · intro c name p
    rfl
  · intro c name f h
    refine ⟨{ c with funcs := (name, f) :: c.funcs }, ?_, ?_⟩
    · simp [HashMapContext.set_function, h]
    · simp [HashMapContext.toContext, List.lookup]

/-- C9 witness: registering an arity-one function into the fresh mapping
context succeeds and the function is retrievable. -/
theorem c9_zero_arity_rejected_witness :
    ∃ c2, HashMapContext.set_function .new "f" ⟨some 1, fun args => .ok (.tuple args)⟩ = .ok c2 ∧
      c2.toContext.get_function "f" = some ⟨some 1, fun args => .ok (.tuple args)⟩ :=
  c9_zero_arity_rejected.2 .new "f" ⟨some 1, fun args => .ok (.tuple args)⟩ (by simp)

/-- A finite numeric value converts to a finite float carrying its fraction,
the fraction has a positive denominator, and its rational reading is the
quotient of numerator by denominator. -/
theorem finiteNumeric_spec (v : Value) (h : finiteNumeric v = true) :
    v.toFloatVal = some (.finite v.fracOf) ∧ 0 < v.fracOf.den ∧
      v.toRat = (v.fracOf.num : Rat) / (v.fracOf.den : Rat) := by
  cases v with
  | int i =>
    refine ⟨rfl, Nat.one_pos, ?_⟩
    simp [Value.toRat, Value.fracOf, Frac.ofInt]
  | float f =>
    cases f with
    | finite q =>
      refine ⟨rfl, ?_, rfl⟩
      simpa [finiteNumeric] using h
    | posInf => simp [finiteNumeric] at h
    | negInf => simp [finiteNumeric] at h
    | nan => simp [finiteNumeric] at h
  | boolean b => simp [finiteNumeric] at h
  | str s => simp [finiteNumeric] at h
  | tuple vs => simp [finiteNumeric] at h
  | empty => simp [finiteNumeric] at h

/-- The strict float order on finite fractions with positive denominators
agrees with the rational order of their readings. -/
theorem flt_iff_toRat (a b : Frac) (ha : 0 < a.den) (hb : 0 < b.den) :
    FloatVal.flt (.finite a) (.finite b) = true ↔
      (a.num : Rat) / (a.den : Rat) < (b.num : Rat) / (b.den : Rat) := by
  rw [div_lt_div_iff₀ (by exact_mod_cast ha) (by exact_mod_cast hb)]
  simp only [FloatVal.flt, decide_eq_true_eq]
  constructor
  · intro h
    exact_mod_cast h
  · intro h
    exact_mod_cast h

/-- The fold underlying the min builtin returns a value drawn from the best
so far and the remaining arguments, minimal among them in the rational
order, whenever all of them are finite numerics. -/
theorem minFold_spec : ∀ (rest : List Value) (best : Value), finiteNumeric best = true →
    (∀ a ∈ rest, finiteNumeric a = true) →
    ∃ r, minFold best rest = .ok r ∧ (r = best ∨ r ∈ rest) ∧
      r.toRat ≤ best.toRat ∧ ∀ a ∈ rest, r.toRat ≤ a.toRat
  | [], best, hb, _ => ⟨best, rfl, Or.inl rfl, le_refl _, by simp⟩
  | v :: rest, best, hb, hr => by
    have hv : finiteNumeric v = true := hr v (List.mem_cons_self v rest)
    have hrest : ∀ a ∈ rest, finiteNumeric a = true := fun a ha =>
      hr a (List.mem_cons_of_mem _ ha)
    obtain ⟨hbf, hbden, hbrat⟩ := finiteNumeric_spec best hb
    obtain ⟨hvf, hvden, hvrat⟩ := finiteNumeric_spec v hv
    have hstep : minFold best (v :: rest)
        = minFold (if FloatVal.flt (.finite v.fracOf) (.finite best.fracOf) then v else best)
            rest := by
      simp [minFold, hbf, hvf]
    by_cases hlt : FloatVal.flt (.finite v.fracOf) (.finite best.fracOf) = true
    · have hlt2 : v.toRat < best.toRat := by
        rw [hvrat, hbrat]
        exact (flt_iff_toRat _ _ hvden hbden).mp hlt
      obtain ⟨r, hm, hmem, hle, hall⟩ := minFold_spec rest v hv hrest
      refine ⟨r, ?_, ?_, ?_, ?_⟩
      · rw [hstep, if_pos hlt]
        exact hm
      · rcases hmem with h | h
        · exact Or.inr (h ▸ List.mem_cons_self v rest)
        · exact Or.inr (List.mem_cons_of_mem _ h)
      · exact le_trans hle (le_of_lt hlt2)
      · intro a ha
        rcases List.mem_cons.mp ha with h | h
        · rw [h]
          exact hle
        · exact hall a h
    · have hnlt : ¬ v.toRat < best.toRat := by
        rw [hvrat, hbrat]
        intro hc
        exact hlt ((flt_iff_toRat _ _ hvden hbden).mpr hc)
      have hge : best.toRat ≤ v.toRat := not_lt.mp hnlt
      obtain ⟨r, hm, hmem, hle, hall⟩ := minFold_spec rest best hb hrest
      refine ⟨r, ?_, ?_, hle, ?_⟩
      · rw [hstep, if_neg hlt]
        exact hm
      · rcases hmem with h | h
        · exact Or.inl h
        · exact Or.inr (List.mem_cons_of_mem _ h)
      · intro a ha
        rcases List.mem_cons.mp ha with h | h
        · rw [h]
          exact le_trans hle hge
        · exact hall a h

/-- The fold underlying the max builtin returns a value drawn from the best
so far and the remaining arguments, maximal among them in the rational
order, whenever all of them are finite numerics. -/
theorem maxFold_spec : ∀ (rest : List Value) (best : Value), finiteNumeric best = true →
    (∀ a ∈ rest, finiteNumeric a = true) →
    ∃ r, maxFold best rest = .ok r ∧ (r = best ∨ r ∈ rest) ∧
      best.toRat ≤ r.toRat ∧ ∀ a ∈ rest, a.toRat ≤ r.toRat
  | [], best, hb, _ => ⟨best, rfl, Or.inl rfl, le_refl _, by simp⟩
  | v :: rest, best, hb, hr => by
    have hv : finiteNumeric v = true := hr v (List.mem_cons_self v rest)
    have hrest : ∀ a ∈ rest, finiteNumeric a = true := fun a ha =>
      hr a (List.mem_cons_of_mem _ ha)
    obtain ⟨hbf, hbden, hbrat⟩ := finiteNumeric_spec best hb
    obtain ⟨hvf, hvden, hvrat⟩ := finiteNumeric_spec v hv
    have hstep : maxFold best (v :: rest)
        = maxFold (if FloatVal.flt (.finite best.fracOf) (.finite v.fracOf) then v else best)
            rest := by
      simp [maxFold, hbf, hvf]
    by_cases hlt : FloatVal.flt (.finite best.fracOf) (.finite v.fracOf) = true
    · have hlt2 : best.toRat < v.toRat := by
        rw [hvrat, hbrat]
        exact (flt_iff_toRat _ _ hbden hvden).mp hlt
      obtain ⟨r, hm, hmem, hle, hall⟩ := maxFold_spec rest v hv hrest
      refine ⟨r, ?_, ?_, ?_, ?_⟩
      · rw [hstep, if_pos hlt]
        exact hm
      · rcases hmem with h | h
        · exact Or.inr (h ▸ List.mem_cons_self v rest)
        · exact Or.inr (List.mem_cons_of_mem _ h)
      · exact le_trans (le_of_lt hlt2) hle
      · intro a ha
        rcases List.mem_cons.mp ha with h | h
        · rw [h]
          exact hle
        · exact hall a h
    · have hnlt : ¬ best.toRat < v.toRat := by
        rw [hvrat, hbrat]
        intro hc
        exact hlt ((flt_iff_toRat _ _ hbden hvden).mpr hc)
      have hge : v.toRat ≤ best.toRat := not_lt.mp hnlt
      obtain ⟨r, hm, hmem, hle, hall⟩ := maxFold_spec rest best hb hrest
      refine ⟨r, ?_, ?_, hle, ?_⟩
      · rw [hstep, if_neg hlt]
        exact hm
      · rcases hmem with h | h
        · exact Or.inl h
        · exact Or.inr (List.mem_cons_of_mem _ h)
      · intro a ha
        rcases List.mem_cons.mp ha with h | h
        · rw [h]
          exact le_trans hge hle
        · exact hall a h

/-- C10: with the empty binding context, which resolves neither min nor max,
the identifiers min and max still evaluate through the builtin table; the
builtins take one or more arguments, erring on zero; over any non-empty
mixture of Integer and finite Float arguments the min builtin returns one of
the arguments that is minimal in the rational order, max one that is
maximal; and the returned value is the argument as it was passed in, so it
carries that extremal argument type, as the concrete evaluations show: min
of the Integer 3 and the Float 2.5 is the Float 2.5 while max of them is the
Integer 3. -/
theorem c10_min_max_builtins :
    (EmptyContext.get_value "min" = none ∧ EmptyContext.get_function "min" = none ∧
      EmptyContext.get_value "max" = none ∧ EmptyContext.get_function "max" = none) ∧
    (∀ args : List Value, args ≠ [] → (∀ a ∈ args, finiteNumeric a = true) →
      ∃ r, builtinMin args = .ok r ∧ r ∈ args ∧ ∀ a ∈ args, r.toRat ≤ a.toRat) ∧
    (∀ args : List Value, args ≠ [] → (∀ a ∈ args, finiteNumeric a = true) →
      ∃ r, builtinMax args = .ok r ∧ r ∈ args ∧ ∀ a ∈ args, a.toRat ≤ r.toRat) ∧
    builtinMin [] = .error (.wrongFunctionArgumentAmount 1 0) ∧
    builtinMax [] = .error (.wrongFunctionArgumentAmount 1 0) ∧
    eval "min(3, 2.5)" = .ok (.float (.finite ⟨5, 2⟩)) ∧
    eval "max(3, 2.5)" = .ok (.int 3) ∧
    eval "min(1)" = .ok (.int 1) := by
  refine ⟨⟨rfl, rfl, rfl, rfl⟩, ?_, ?_, rfl, rfl, rfl, rfl, rfl⟩
  · intro args hne hall
    match args with
    | [] => exact absurd rfl hne
    | v :: rest =>
      obtain ⟨r, hm, hmem, hle, hrest⟩ := minFold_spec rest v
        (hall v (List.mem_cons_self v rest))
        (fun a ha => hall a (List.mem_cons_of_mem _ ha))
      refine ⟨r, hm, ?_, ?_⟩
      · rcases hmem with h | h
        · exact h ▸ List.mem_cons_self v rest
        · exact List.mem_cons_of_mem _ h
      · intro a ha
        rcases List.mem_cons.mp ha with h | h
        · rw [h]
          exact hle
        · exact hrest a h
  · intro args hne hall
    match args with
    | [] => exact absurd rfl hne
    | v :: rest =>
      obtain ⟨r, hm, hmem, hle, hrest⟩ := maxFold_spec rest v
        (hall v (List.mem_cons_self v rest))
        (fun a ha => hall a (List.mem_cons_of_mem _ ha))
      refine ⟨r, hm, ?_, ?_⟩
      · rcases hmem with h | h
        · exact h ▸ List.mem_cons_self v rest
        · exact List.mem_cons_of_mem _ h
      · intro a ha
        rcases List.mem_cons.mp ha with h | h
        · rw [h]
          exact hle
        · exact hrest a h

/-- C10 witness: the min conjunct instantiated at the one-element argument
list holding the Integer 1. -/
theorem c10_min_max_builtins_witness :
    ∃ r, builtinMin [Value.int 1] = .ok r ∧ r ∈ [Value.int 1] ∧
      ∀ a ∈ [Value.int 1], r.toRat ≤ a.toRat :=
  c10_min_max_builtins.2.1 [Value.int 1] (List.cons_ne_nil _ _) (by decide)

end Evalexpr
